import Mathlib

/-!
Verification development for the PushBox repository (src/main.py, src/commiter.py).

The file shallowly embeds the parts of the program the specification talks about:

* `upload_folder` — the virtual-folder synchronization routine
  (`DashboardPage.upload_folder`, src/main.py lines 625-684), together with the
  observable events it produces (network calls, dialog boxes, progress-bar
  updates) and the Python exceptions it can raise (modelled with `Except`).
* `save_folders_to_config` — the persistence of the folder-to-paths mapping
  (src/main.py lines 529-534).
* `add_files_to_folder` — the file-list update of
  `DashboardPage.add_files_to_folder` (src/main.py lines 553-563).
* `add_file_item` — the thumbnail-cache decision of
  `DashboardPage.add_file_item` (src/main.py lines 570-601).
* `splitlines`, `normalize_line`, `toggle_step` — the line-toggle iteration of
  src/commiter.py (lines 31-35 and 84-107).

The GitHub remote is an external collaborator (it is not code of this
repository); its request/response behaviour is modelled from the interface
description in the specification (section 4.1) and the GitHub contents API the
code calls: an object GET returns 200 with the current sha when the object
exists and 404 otherwise, and a PUT succeeds exactly when the supplied expected
sha matches the current one (or the object is new and no sha is supplied).
-/

/-- Python exceptions that can escape `upload_folder` uncaught: an `OSError`
from `f.stat()` (src/main.py lines 655 and 679, both outside any `try`), and the
`ZeroDivisionError` from `int(uploaded / total_size * 100)` (line 680) when
`total_size == 0`. -/
inductive PyErr where
  | statError (path : String)
  | zeroDivisionError
deriving DecidableEq, Repr

/-- A `pathlib.Path` as stored in a virtual folder's file list.  The code uses
`f.name` (the basename) for remote object names and dialog texts and the full
path for local reads; files in one folder are modelled by their path string. -/
structure PyPath where
  str : String
deriving DecidableEq, Repr

/-- State of one local file, fixed for the duration of one sync run (the
filesystem is not mutated by the program during a run): missing (`stat` and
`read_bytes` raise), unreadable (`stat` succeeds with the given size,
`read_bytes` raises, e.g. permission denied), or present with the given bytes
(`stat` returns the byte count, `read_bytes` returns the bytes). -/
inductive FileState where
  | absent
  | unreadable (size : Nat)
  | present (bytes : List Nat)
deriving DecidableEq, Repr

/-- `f.stat().st_size`: `none` models the call raising `OSError`. -/
def statSize (fs : String → FileState) (p : PyPath) : Option Nat :=
  match fs p.str with
  | .absent => none
  | .unreadable sz => some sz
  | .present bytes => some bytes.length

/-- `f.read_bytes()`: `none` models the call raising (file gone or unreadable). -/
def readBytes (fs : String → FileState) (p : PyPath) : Option (List Nat) :=
  match fs p.str with
  | .absent => none
  | .unreadable _ => none
  | .present bytes => some bytes

/-- A remote version token ("sha" in the GitHub contents API). -/
abbrev Sha := List Nat

/-- Content-derived version token the modelled server stores for uploaded
bytes.  The real server computes a git blob sha of the content; only its
determinism and injectivity in the content matter here, so it is modelled as an
idealized perfect digest of the byte list. -/
def gitSha (bytes : List Nat) : Sha := bytes

/-- Modelled from the spec: `ContentHasher.hash` ("a stable, deterministic
digest ... any collision-resistant hash is acceptable", spec section 4.2).  No
hashing code exists in the repository; the digest is modelled as the same
idealized content-addressing function the modelled server uses for its version
tokens, so that "remote token equals hash of local bytes" is exactly
"content unchanged". -/
def ContentHasher_hash (bytes : List Nat) : Sha := gitSha bytes

/-- Observable actions of one `upload_folder` run: network requests issued,
dialog boxes shown (`QMessageBox` calls), and progress-bar updates
(`self.progress.setValue`). -/
inductive Event where
  | repoGet                                  -- requests.get(repo_url)         (line 644)
  | repoCreate                               -- requests.post(.../user/repos)  (line 647)
  | objGet (name : String)                   -- requests.get(contents url)     (line 668)
  | objPut (name : String) (shaArg : Option Sha) -- requests.put(contents url) (line 672)
  | progress (p : Nat)                       -- self.progress.setValue(p)
  | warnRead (name : String)                 -- "Read Error: Cannot read {name}"    (line 662)
  | warnUpload (name : String)               -- "Upload Failed: Failed to upload {name}" (line 674)
  | warnNetwork (name : String)              -- "Network Error: Error uploading {name}"  (line 677)
  | warnAuthMissing                          -- "Auth missing"                  (line 636)
  | infoEmpty                                -- "Empty: No files to upload."    (line 630)
  | criticalRepoCheck                        -- "Exception checking/creating repo" (line 653)
  | criticalCreateRepo                       -- "Cannot create repo"            (line 649)
  | infoComplete                             -- "Backup Complete"               (line 684)
deriving DecidableEq, Repr

/-- Credentials loaded from the configuration store (`cfg.get("username")`,
`cfg.get("token")`); the empty string models a falsy/missing value. -/
structure Config where
  username : String
  token : String
deriving DecidableEq, Repr

/-- Fault model for the network during one run: whether the stored credentials
are accepted by the server, and which individual requests raise a transport
exception (`requests.exceptions.RequestException` or similar). -/
structure NetEnv where
  authOk : Bool
  repoGetFault : Bool
  createFault : Bool
  createRejects : Bool
  objGetFault : String → Bool
  objPutFault : String → Bool

/-- Status code of `requests.get(repo_url)` (no exception case): 401 on bad
credentials, 200 when the repository exists, 404 otherwise.  Note the code only
tests `== 404`, so any other status is treated as "repository exists". -/
def repoGetStatus (net : NetEnv) (repoPresent : Bool) : Nat :=
  if net.authOk then (if repoPresent then 200 else 404) else 401

/-- Modelled from the spec (section 4.1) and the GitHub contents API: the
server side of `requests.put` on a contents URL.  Returns the HTTP status and
the new object map.  The write is accepted exactly when the supplied expected
sha matches the object's current sha (or the object is new and no sha was
supplied); on success the stored sha becomes the content-derived token of the
uploaded bytes. -/
def serverPut (authOk repoNow : Bool) (objs : List (String × Sha)) (name : String)
    (bytes : List Nat) (shaArg : Option Sha) : Nat × List (String × Sha) :=
  if authOk then
    if repoNow then
      match List.lookup name objs, shaArg with
      | none, none => (201, objs ++ [(name, gitSha bytes)])
      | none, some _ => (422, objs)
      | some cur, some s =>
          if s = cur then
            (200, objs.map (fun kv => if kv.1 = name then (kv.1, gitSha bytes) else kv))
          else (409, objs)
      | some _, none => (422, objs)
    else (404, objs)
  else (401, objs)

/-- Result of the per-file loop: events emitted in order, the remote object map
after the processed prefix, and the uncaught exception that aborted the loop,
if any. -/
structure LoopOut where
  events : List Event
  objects : List (String × Sha)
  err : Option PyErr
deriving Repr

/-- Prepend the events of one loop iteration to the remainder's output. -/
def LoopOut.prepend (evs : List Event) (o : LoopOut) : LoopOut :=
  ⟨evs ++ o.events, o.objects, o.err⟩

/-- The expected-version argument attached to the PUT payload: the sha from
the metadata GET when that GET returned 200 (which, under valid credentials,
happens exactly when the object exists), and nothing otherwise. -/
def shaArgOf (net : NetEnv) (objs : List (String × Sha)) (name : String) : Option Sha :=
  if net.authOk then List.lookup name objs else none

/-- The `for f in files:` loop of `upload_folder` (src/main.py lines 658-682).
Each iteration: read the local bytes (warn and continue on failure), GET the
object metadata (warn and continue on transport failure), PUT the content with
the fetched sha attached when the GET returned 200 (warn and continue on
transport failure or non-2xx status), then re-`stat` the file, add its size to
`uploaded` and set the progress bar to `int(uploaded / total_size * 100)` —
which raises `ZeroDivisionError` when `total_size` is zero, aborting the run.
Python computes the percentage by float division then truncation; it is
modelled here as exact natural floor division `uploaded * 100 / total`.  Both
are monotone in `uploaded` and bounded by 100 whenever `uploaded ≤ total`,
which is all the progress properties rely on. -/
def syncLoop (net : NetEnv) (fs : String → FileState) (repoNow : Bool) (total : Nat) :
    List PyPath → Nat → List (String × Sha) → LoopOut
  | [], _, objs => ⟨[], objs, none⟩
  | f :: rest, uploaded, objs =>
    match readBytes fs f with
    | none =>
        LoopOut.prepend [.warnRead f.str] (syncLoop net fs repoNow total rest uploaded objs)
    | some bytes =>
        if net.objGetFault f.str then
          LoopOut.prepend [.objGet f.str, .warnNetwork f.str]
            (syncLoop net fs repoNow total rest uploaded objs)
        else
          let shaArg := shaArgOf net objs f.str
          if net.objPutFault f.str then
            LoopOut.prepend [.objGet f.str, .objPut f.str shaArg, .warnNetwork f.str]
              (syncLoop net fs repoNow total rest uploaded objs)
          else
            let pr := serverPut net.authOk repoNow objs f.str bytes shaArg
            if ¬(pr.1 = 200 ∨ pr.1 = 201) then
              LoopOut.prepend [.objGet f.str, .objPut f.str shaArg, .warnUpload f.str]
                (syncLoop net fs repoNow total rest uploaded pr.2)
            else
              match statSize fs f with
              | none => ⟨[.objGet f.str, .objPut f.str shaArg], pr.2, some (.statError f.str)⟩
              | some sz =>
                if total = 0 then
                  ⟨[.objGet f.str, .objPut f.str shaArg], pr.2, some .zeroDivisionError⟩
                else
                  LoopOut.prepend
                    [.objGet f.str, .objPut f.str shaArg, .progress ((uploaded + sz) * 100 / total)]
                    (syncLoop net fs repoNow total rest (uploaded + sz) pr.2)

/-- `total_size = sum(f.stat().st_size for f in files)` (src/main.py line 655):
evaluated left to right, outside any `try`, so the first failing `stat` raises
out of `upload_folder`. -/
def totalSize (fs : String → FileState) : List PyPath → Except PyErr Nat
  | [] => .ok 0
  | f :: rest =>
    match statSize fs f with
    | none => .error (.statError f.str)
    | some n => (totalSize fs rest).map (n + ·)

/-- Full result of one `upload_folder` call: the events in order, the (never
modified) folder-to-paths mapping, the remote repository state after the run,
and whether the call returned normally or raised. -/
structure SyncResult where
  events : List Event
  virtualFolders : List (String × List PyPath)
  repoPresent : Bool
  objects : List (String × Sha)
  outcome : Except PyErr Unit
deriving Repr

/-- The transfer phase of `upload_folder` (everything from line 655 on), entered
after provisioning with the events it already emitted. -/
def runTransfer (net : NetEnv) (fs : String → FileState)
    (vfs : List (String × List PyPath)) (repoNow : Bool) (objects : List (String × Sha))
    (prov : List Event) (files : List PyPath) : SyncResult :=
  match totalSize fs files with
  | .error e => ⟨prov, vfs, repoNow, objects, .error e⟩
  | .ok total =>
    let lo := syncLoop net fs repoNow total files 0 objects
    match lo.err with
    | some e => ⟨prov ++ .progress 0 :: lo.events, vfs, repoNow, lo.objects, .error e⟩
    | none =>
        ⟨prov ++ .progress 0 :: lo.events ++ [.progress 100, .infoComplete],
          vfs, repoNow, lo.objects, .ok ()⟩

/-- `DashboardPage.upload_folder` (src/main.py lines 625-684).  `currentFolder`
is `self.current_folder` (the empty string models no selection, which Python
treats as falsy).  In order: bail out if no folder is selected; report "Empty"
and return if the folder's file list is empty; report "Auth missing" and return
if a credential is missing; check the repository with a GET and create it when
that GET returns 404, aborting on a transport exception or a failed create;
then compute the total size and run the per-file loop. -/
def upload_folder (cfg : Config) (net : NetEnv) (fs : String → FileState)
    (currentFolder : String) (vfs : List (String × List PyPath))
    (repoPresent : Bool) (objects : List (String × Sha)) : SyncResult :=
  if currentFolder = "" then ⟨[], vfs, repoPresent, objects, .ok ()⟩
  else
    let files := (List.lookup currentFolder vfs).getD []
    if files.isEmpty then ⟨[.infoEmpty], vfs, repoPresent, objects, .ok ()⟩
    else if cfg.username = "" ∨ cfg.token = "" then
      ⟨[.warnAuthMissing], vfs, repoPresent, objects, .ok ()⟩
    else if net.repoGetFault then
      ⟨[.repoGet, .criticalRepoCheck], vfs, repoPresent, objects, .ok ()⟩
    else if repoGetStatus net repoPresent = 404 then
      if net.createFault then
        ⟨[.repoGet, .repoCreate, .criticalRepoCheck], vfs, repoPresent, objects, .ok ()⟩
      else if net.createRejects then
        ⟨[.repoGet, .repoCreate, .criticalCreateRepo], vfs, repoPresent, objects, .ok ()⟩
      else runTransfer net fs vfs true objects [.repoGet, .repoCreate] files
    else runTransfer net fs vfs repoPresent objects [.repoGet] files

/-- `DashboardPage.save_folders_to_config` (src/main.py lines 529-534): the
persisted configuration maps each folder name to the list of its file path
strings — nothing else is stored per file. -/
def save_folders_to_config (vfs : List (String × List PyPath)) :
    List (String × List String) :=
  vfs.map (fun kv => (kv.1, kv.2.map PyPath.str))

/-- Percent value carried by a progress event, if any. -/
def progressOf : Event → Option Nat
  | .progress p => some p
  | _ => none

/-- The sequence of progress-bar values emitted during a run, in order. -/
def progressValues (evs : List Event) : List Nat :=
  evs.filterMap progressOf

/-- Whether an event is a `putObject` call (`requests.put` on a contents URL). -/
def isPutEvent : Event → Bool
  | .objPut _ _ => true
  | _ => false

/-- Number of `putObject` calls in a run. -/
def putCount (evs : List Event) : Nat :=
  (evs.filter isPutEvent).length

/-- Whether an event is one of the per-file warning dialogs (or the
missing-credentials warning). -/
def isWarnEvent : Event → Bool
  | .warnRead _ => true
  | .warnUpload _ => true
  | .warnNetwork _ => true
  | .warnAuthMissing => true
  | _ => false

/-- Number of warning dialogs shown in a run. -/
def warnCount (evs : List Event) : Nat :=
  (evs.filter isWarnEvent).length

/-- Whether an event is the `createRepository` call. -/
def isCreateEvent : Event → Bool
  | .repoCreate => true
  | _ => false

/-- Whether the call returned normally (no uncaught exception). -/
def outcomeOk : Except PyErr Unit → Bool
  | .ok _ => true
  | .error _ => false

/-- The uncaught exception of a run, if any. -/
def outcomeErr : Except PyErr Unit → Option PyErr
  | .ok _ => none
  | .error e => some e

/-- Sum of the stat sizes of a file list (0 for a failing stat); equals the
computed total when `totalSize` succeeds. -/
def sumStat (fs : String → FileState) (files : List PyPath) : Nat :=
  (files.map (fun f => (statSize fs f).getD 0)).sum

/-- The body of the `if path not in ...` insertion in
`DashboardPage.add_files_to_folder` (src/main.py lines 558-560): a chosen path
is appended only when it is not already in the folder's list. -/
def addFileStep (acc : List PyPath) (p : PyPath) : List PyPath :=
  if p ∈ acc then acc else acc ++ [p]

/-- The file-list update of `DashboardPage.add_files_to_folder` (src/main.py
lines 553-563): each chosen path is checked against the current (already
extended) list before being appended. -/
def add_files_to_folder (existing chosen : List PyPath) : List PyPath :=
  chosen.foldl addFileStep existing

/-- Observable actions of the thumbnail logic of `add_file_item`: reading the
cached image from disk (`QPixmap(str(cached_thumb_path))`), setting the
thumbnail on the widget, or dispatching a `ThumbnailWorker` to the thread pool
(the only path that performs network requests). -/
inductive ThumbEvent where
  | loadCachedPixmap (path : String)
  | setThumbnail (fileName : String)
  | dispatchWorker (repo fileName : String)
deriving DecidableEq, Repr

/-- The cache key `f"{self.current_folder}_{path.name}"` (src/main.py line 585). -/
def thumb_cache_key (folder fileName : String) : String :=
  folder ++ "_" ++ fileName

/-- The thumbnail-loading logic of `DashboardPage.add_file_item` (src/main.py
lines 583-601): if a file exists under the cache root for the key
`folder_filename`, load it from disk, set it and return; otherwise start a
background `ThumbnailWorker` (which downloads from GitHub). -/
def add_file_item (cacheHas : String → Bool) (currentFolder fileName : String) :
    List ThumbEvent :=
  if cacheHas (thumb_cache_key currentFolder fileName) then
    [.loadCachedPixmap (thumb_cache_key currentFolder fileName), .setThumbnail fileName]
  else
    [.dispatchWorker currentFolder fileName]

/-! ## src/commiter.py: line-toggle loop -/

/-- The characters Python's `str.splitlines` treats as line boundaries. -/
def isLineBreak (c : Char) : Bool :=
  c = '\n' ∨ c = '\r' ∨ c = '\x0b' ∨ c = '\x0c' ∨
  c = '\x1c' ∨ c = '\x1d' ∨ c = '\x1e' ∨ c = '\x85' ∨
  c = '\u2028' ∨ c = '\u2029'

/-- Worker for `splitlines`: `acc` is the current (unfinished) line, reversed.
A `"\r\n"` pair counts as a single boundary; a boundary at the very end of the
input does not open a new (empty) final line. -/
def splitlinesGo : List Char → List Char → List (List Char)
  | [], acc => [acc.reverse]
  | [c], acc => if isLineBreak c then [acc.reverse] else [(c :: acc).reverse]
  | c :: d :: rest2, acc =>
    if isLineBreak c then
      if c = '\r' ∧ d = '\n' then
        match rest2 with
        | [] => [acc.reverse]
        | _ :: _ => acc.reverse :: splitlinesGo rest2 []
      else acc.reverse :: splitlinesGo (d :: rest2) []
    else splitlinesGo (d :: rest2) (c :: acc)

/-- Python's `str.splitlines()` on a text modelled as a character list:
the empty text has no lines; otherwise split at line boundaries, merging
`"\r\n"`, with no trailing empty line for a text ending in a boundary. -/
def splitlines (s : List Char) : List (List Char) :=
  match s with
  | [] => []
  | _ :: _ => splitlinesGo s []

/-- A string with no line-boundary character in it (what it means to be a
single line). -/
def lineBreakFree (l : List Char) : Bool :=
  l.all (fun c => !isLineBreak c)

/-- Python's `"\n".join(...)` (src/commiter.py line 101). -/
def joinNL : List (List Char) → List Char
  | [] => []
  | [l] => l
  | l :: ls => l ++ '\n' :: joinNL ls

/-- Python's `text.endswith("\n")` (src/commiter.py line 92). -/
def endsWithNewline (s : List Char) : Bool :=
  s.getLast? = some '\n'

/-- `normalize_line` (src/commiter.py lines 31-35): strip one pair of matching
surrounding quotes, if present. -/
def normalize_line (s : List Char) : List Char :=
  if 2 ≤ s.length ∧ s.head? = s.getLast? ∧ (s.head? = some '\'' ∨ s.head? = some '"') then
    (s.drop 1).dropLast
  else s

/-- One iteration of the toggle loop of `main` (src/commiter.py lines 85-107,
file edit only): if no line of the file equals the target, append the target
with a trailing newline (inserting a newline first when the text is non-empty
and does not already end in `"\n"`); otherwise remove every line equal to the
target and rejoin the remaining lines with `"\n"`, with a trailing newline
when any line remains. -/
def toggle_step (target text : List Char) : List Char :=
  let lines := splitlines text
  let has_line := lines.any (fun l => l == target)
  if ¬has_line then
    let text1 := if ¬text.isEmpty ∧ ¬endsWithNewline text then text ++ ['\n'] else text
    text1 ++ target ++ ['\n']
  else
    let newLines := lines.filter (fun l => !(l == target))
    let out := joinNL newLines
    if newLines.isEmpty then out else out ++ ['\n']

/-! ## Concrete environments used by counterexamples and witnesses -/

/-- Credentials present and non-empty. -/
def cfgEx : Config := ⟨"user", "tok"⟩

/-- Fault-free network with valid credentials. -/
def netOk : NetEnv :=
  ⟨true, false, false, false, fun _ => false, fun _ => false⟩

/-- Fault-free transport but credentials the server rejects (every request
gets a 401 response rather than an exception). -/
def netAuthBad : NetEnv :=
  ⟨false, false, false, false, fun _ => false, fun _ => false⟩

/-- Network whose provisioning GET raises a transport exception. -/
def netGetFault : NetEnv :=
  ⟨true, true, false, false, fun _ => false, fun _ => false⟩

/-- One local file `a.txt` with three bytes of content. -/
def fsOne : String → FileState :=
  fun s => if s = "a.txt" then .present [1, 2, 3] else .absent

/-- Folder `docs` containing just `a.txt`. -/
def vfsOne : List (String × List PyPath) := [("docs", [⟨"a.txt"⟩])]

/-- `a.txt` holding the single byte 1. -/
def fsB1 : String → FileState :=
  fun s => if s = "a.txt" then .present [1] else .absent

/-- `a.txt` holding the single byte 2. -/
def fsB2 : String → FileState :=
  fun s => if s = "a.txt" then .present [2] else .absent

/-- One local file `z.txt` that is empty (zero bytes). -/
def fsZero : String → FileState :=
  fun s => if s = "z.txt" then .present [] else .absent

/-- Folder `docs` containing just the empty file `z.txt`. -/
def vfsZero : List (String × List PyPath) := [("docs", [⟨"z.txt"⟩])]

/-- Files `a.txt` and `c.txt` present, `b.txt` vanished from disk. -/
def fsABC : String → FileState :=
  fun s => if s = "a.txt" then .present [1]
    else if s = "c.txt" then .present [1]
    else .absent

/-- Folder `docs` with the ordered files A, B, C where B is missing locally. -/
def vfsABC : List (String × List PyPath) :=
  [("docs", [⟨"a.txt"⟩, ⟨"b.txt"⟩, ⟨"c.txt"⟩])]

/-- Folder `empty` with no files. -/
def vfsEmptyF : List (String × List PyPath) := [("empty", [])]

/-- Ordered files A, B, C where B exists (its size can be stat'ed) but cannot
be read (e.g. permission denied), while A and C are readable. -/
def fsMix : String → FileState :=
  fun s => if s = "a.txt" then .present [1]
    else if s = "b.txt" then .unreadable 1
    else if s = "c.txt" then .present [1]
    else .absent

/-- Folder `docs` with the ordered files A, B, C of `fsMix`. -/
def vfsMix : List (String × List PyPath) :=
  [("docs", [⟨"a.txt"⟩, ⟨"b.txt"⟩, ⟨"c.txt"⟩])]

/-- Fault-free network except that the PUT for `c.txt` raises a transport
exception. -/
def netPutFaultC : NetEnv :=
  ⟨true, false, false, false, fun _ => false, fun s => s == "c.txt"⟩

/-! ## Helper lemmas -/

theorem runTransfer_vfs (net : NetEnv) (fs : String → FileState)
    (vfs : List (String × List PyPath)) (repoNow : Bool) (objects : List (String × Sha))
    (prov : List Event) (files : List PyPath) :
    (runTransfer net fs vfs repoNow objects prov files).virtualFolders = vfs := by
  unfold runTransfer
  split
  · rfl
  · dsimp only
    split <;> rfl

theorem upload_folder_vfs (cfg : Config) (net : NetEnv) (fs : String → FileState)
    (currentFolder : String) (vfs : List (String × List PyPath)) (rp : Bool)
    (objs : List (String × Sha)) :
    (upload_folder cfg net fs currentFolder vfs rp objs).virtualFolders = vfs := by
  unfold upload_folder
  dsimp only
  repeat' split
  all_goals first
    | rfl
    | exact runTransfer_vfs _ _ _ _ _ _ _

theorem totalSize_eq_sumStat (fs : String → FileState) :
    ∀ (files : List PyPath) (total : Nat),
      totalSize fs files = .ok total → sumStat fs files = total := by
  intro files
  induction files with
  | nil =>
    intro t h
    simp [totalSize] at h
    simp [sumStat, ← h]
  | cons f rest ih =>
    intro t h
    unfold totalSize at h
    cases hs : statSize fs f with
    | none => rw [hs] at h; exact absurd h (by simp)
    | some n =>
      rw [hs] at h
      cases hr : totalSize fs rest with
      | error e => rw [hr] at h; simp [Except.map] at h
      | ok m =>
        rw [hr] at h
        simp [Except.map] at h
        have hm := ih m hr
        simp [sumStat] at hm ⊢
        rw [hs]
        simp [sumStat] at hm ⊢
        omega

theorem statSize_isSome_of_readBytes (fs : String → FileState) (f : PyPath)
    (bytes : List Nat) (h : readBytes fs f = some bytes) :
    statSize fs f = some bytes.length := by
  revert h
  unfold readBytes statSize
  cases fs f.str <;> intro h <;> simp_all

theorem putCount_nil : putCount [] = 0 := rfl

theorem putCount_append (l1 l2 : List Event) :
    putCount (l1 ++ l2) = putCount l1 + putCount l2 := by
  simp [putCount, List.filter_append]

theorem putCount_cons (e : Event) (l : List Event) :
    putCount (e :: l) = (if isPutEvent e = true then 1 else 0) + putCount l := by
  simp only [putCount, List.filter_cons]
  split
  · simp
    omega
  · simp

theorem syncLoop_err_none (net : NetEnv) (fs : String → FileState) (repoNow : Bool)
    (total : Nat) (hpos : 0 < total) :
    ∀ (files : List PyPath) (uploaded : Nat) (objs : List (String × Sha)),
      (syncLoop net fs repoNow total files uploaded objs).err = none := by
  intro files
  induction files with
  | nil => intro u o; rfl
  | cons f rest ih =>
    intro u o
    unfold syncLoop
    cases heq : readBytes fs f with
    | none => simp [LoopOut.prepend, ih]
    | some bytes =>
      dsimp only
      cases hgf : net.objGetFault f.str with
      | true => simp [LoopOut.prepend, ih]
      | false =>
        cases hpf : net.objPutFault f.str with
        | true => simp [LoopOut.prepend, ih]
        | false =>
          by_cases hok :
              ((serverPut net.authOk repoNow o f.str bytes (shaArgOf net o f.str)).1 = 200
                ∨ (serverPut net.authOk repoNow o f.str bytes (shaArgOf net o f.str)).1 = 201)
          · rw [statSize_isSome_of_readBytes fs f bytes heq]
            have htz : ¬(total = 0) := by omega
            simp [hok, htz, LoopOut.prepend, ih]
          · simp [hok, LoopOut.prepend, ih]

theorem syncLoop_no_create (net : NetEnv) (fs : String → FileState) (repoNow : Bool)
    (total : Nat) (files : List PyPath) (uploaded : Nat) (objs : List (String × Sha)) :
    ((syncLoop net fs repoNow total files uploaded objs).events.any isCreateEvent) = false := by
  induction files generalizing uploaded objs with
  | nil => rfl
  | cons f rest ih =>
    unfold syncLoop
    cases heq : readBytes fs f with
    | none => simp [LoopOut.prepend, isCreateEvent, ih]
    | some bytes =>
      dsimp only
      cases hgf : net.objGetFault f.str with
      | true => simp [LoopOut.prepend, isCreateEvent, ih]
      | false =>
        cases hpf : net.objPutFault f.str with
        | true => simp [LoopOut.prepend, isCreateEvent, ih]
        | false =>
          by_cases hok :
              ((serverPut net.authOk repoNow objs f.str bytes (shaArgOf net objs f.str)).1 = 200
                ∨ (serverPut net.authOk repoNow objs f.str bytes (shaArgOf net objs f.str)).1 = 201)
          · rw [statSize_isSome_of_readBytes fs f bytes heq]
            by_cases htz : total = 0
            · simp [hok, htz, isCreateEvent]
            · simp [hok, htz, LoopOut.prepend, isCreateEvent, ih]
          · simp [hok, LoopOut.prepend, isCreateEvent, ih]

theorem syncLoop_warnRead_mem (net : NetEnv) (fs : String → FileState) (repoNow : Bool)
    (total : Nat) (hpos : 0 < total) :
    ∀ (files : List PyPath) (uploaded : Nat) (objs : List (String × Sha)) (f : PyPath),
      f ∈ files → readBytes fs f = none →
      Event.warnRead f.str ∈ (syncLoop net fs repoNow total files uploaded objs).events := by
  intro files
  induction files with
  | nil => intro u o f hf _; exact absurd hf (List.not_mem_nil f)
  | cons g rest ih =>
    intro u o f hf hread
    rcases List.mem_cons.mp hf with rfl | hf2
    · unfold syncLoop
      rw [hread]
      simp [LoopOut.prepend]
    · unfold syncLoop
      cases heq : readBytes fs g with
      | none => simp [LoopOut.prepend, List.mem_append, ih _ _ f hf2 hread]
      | some bytes =>
        dsimp only
        cases hgf : net.objGetFault g.str with
        | true => simp [LoopOut.prepend, List.mem_append, ih _ _ f hf2 hread]
        | false =>
          cases hpf : net.objPutFault g.str with
          | true => simp [LoopOut.prepend, List.mem_append, ih _ _ f hf2 hread]
          | false =>
            by_cases hok :
                ((serverPut net.authOk repoNow o g.str bytes (shaArgOf net o g.str)).1 = 200
                  ∨ (serverPut net.authOk repoNow o g.str bytes (shaArgOf net o g.str)).1 = 201)
            · rw [statSize_isSome_of_readBytes fs g bytes heq]
              have htz : ¬(total = 0) := by omega
              simp [hok, htz, LoopOut.prepend, List.mem_append, ih _ _ f hf2 hread]
            · simp [hok, LoopOut.prepend, List.mem_append, ih _ _ f hf2 hread]

theorem syncLoop_objGet_mem (net : NetEnv) (fs : String → FileState) (repoNow : Bool)
    (total : Nat) (hpos : 0 < total) :
    ∀ (files : List PyPath) (uploaded : Nat) (objs : List (String × Sha)) (f : PyPath),
      f ∈ files → (readBytes fs f).isSome = true →
      Event.objGet f.str ∈ (syncLoop net fs repoNow total files uploaded objs).events := by
  intro files
  induction files with
  | nil => intro u o f hf _; exact absurd hf (List.not_mem_nil f)
  | cons g rest ih =>
    intro u o f hf hread
    rcases List.mem_cons.mp hf with rfl | hf2
    · obtain ⟨bytes, hb⟩ := Option.isSome_iff_exists.mp hread
      unfold syncLoop
      rw [hb]
      dsimp only
      cases hgf : net.objGetFault f.str with
      | true => simp [LoopOut.prepend]
      | false =>
        cases hpf : net.objPutFault f.str with
        | true => simp [LoopOut.prepend]
        | false =>
          by_cases hok :
              ((serverPut net.authOk repoNow o f.str bytes (shaArgOf net o f.str)).1 = 200
                ∨ (serverPut net.authOk repoNow o f.str bytes (shaArgOf net o f.str)).1 = 201)
          · rw [statSize_isSome_of_readBytes fs f bytes hb]
            by_cases htz : total = 0
            · simp [hok, htz]
            · simp [hok, htz, LoopOut.prepend]
          · simp [hok, LoopOut.prepend]
    · unfold syncLoop
      cases heq : readBytes fs g with
      | none => simp [LoopOut.prepend, List.mem_append, ih _ _ f hf2 hread]
      | some bytes =>
        dsimp only
        cases hgf : net.objGetFault g.str with
        | true => simp [LoopOut.prepend, List.mem_append, ih _ _ f hf2 hread]
        | false =>
          cases hpf : net.objPutFault g.str with
          | true => simp [LoopOut.prepend, List.mem_append, ih _ _ f hf2 hread]
          | false =>
            by_cases hok :
                ((serverPut net.authOk repoNow o g.str bytes (shaArgOf net o g.str)).1 = 200
                  ∨ (serverPut net.authOk repoNow o g.str bytes (shaArgOf net o g.str)).1 = 201)
            · rw [statSize_isSome_of_readBytes fs g bytes heq]
              have htz : ¬(total = 0) := by omega
              simp [hok, htz, LoopOut.prepend, List.mem_append, ih _ _ f hf2 hread]
            · simp [hok, LoopOut.prepend, List.mem_append, ih _ _ f hf2 hread]

theorem syncLoop_warnNetwork_getFault_mem (net : NetEnv) (fs : String → FileState)
    (repoNow : Bool) (total : Nat) (hpos : 0 < total) :
    ∀ (files : List PyPath) (uploaded : Nat) (objs : List (String × Sha)) (f : PyPath),
      f ∈ files → (readBytes fs f).isSome = true → net.objGetFault f.str = true →
      Event.warnNetwork f.str ∈ (syncLoop net fs repoNow total files uploaded objs).events := by
  intro files
  induction files with
  | nil => intro u o f hf _ _; exact absurd hf (List.not_mem_nil f)
  | cons g rest ih =>
    intro u o f hf hread hgff
    rcases List.mem_cons.mp hf with rfl | hf2
    · obtain ⟨bytes, hb⟩ := Option.isSome_iff_exists.mp hread
      unfold syncLoop
      rw [hb]
      dsimp only
      simp [hgff, LoopOut.prepend]
    · unfold syncLoop
      cases heq : readBytes fs g with
      | none => simp [LoopOut.prepend, List.mem_append, ih _ _ f hf2 hread hgff]
      | some bytes =>
        dsimp only
        cases hgf : net.objGetFault g.str with
        | true => simp [LoopOut.prepend, List.mem_append, ih _ _ f hf2 hread hgff]
        | false =>
          cases hpf : net.objPutFault g.str with
          | true => simp [LoopOut.prepend, List.mem_append, ih _ _ f hf2 hread hgff]
          | false =>
            by_cases hok :
                ((serverPut net.authOk repoNow o g.str bytes (shaArgOf net o g.str)).1 = 200
                  ∨ (serverPut net.authOk repoNow o g.str bytes (shaArgOf net o g.str)).1 = 201)
            · rw [statSize_isSome_of_readBytes fs g bytes heq]
              have htz : ¬(total = 0) := by omega
              simp [hok, htz, LoopOut.prepend, List.mem_append, ih _ _ f hf2 hread hgff]
            · simp [hok, LoopOut.prepend, List.mem_append, ih _ _ f hf2 hread hgff]

theorem syncLoop_warnNetwork_putFault_mem (net : NetEnv) (fs : String → FileState)
    (repoNow : Bool) (total : Nat) (hpos : 0 < total) :
    ∀ (files : List PyPath) (uploaded : Nat) (objs : List (String × Sha)) (f : PyPath),
      f ∈ files → (readBytes fs f).isSome = true → net.objGetFault f.str = false →
      net.objPutFault f.str = true →
      Event.warnNetwork f.str ∈ (syncLoop net fs repoNow total files uploaded objs).events := by
  intro files
  induction files with
  | nil => intro u o f hf _ _ _; exact absurd hf (List.not_mem_nil f)
  | cons g rest ih =>
    intro u o f hf hread hgff hpff
    rcases List.mem_cons.mp hf with rfl | hf2
    · obtain ⟨bytes, hb⟩ := Option.isSome_iff_exists.mp hread
      unfold syncLoop
      rw [hb]
      dsimp only
      simp [hgff, hpff, LoopOut.prepend]
    · unfold syncLoop
      cases heq : readBytes fs g with
      | none => simp [LoopOut.prepend, List.mem_append, ih _ _ f hf2 hread hgff hpff]
      | some bytes =>
        dsimp only
        cases hgf : net.objGetFault g.str with
        | true => simp [LoopOut.prepend, List.mem_append, ih _ _ f hf2 hread hgff hpff]
        | false =>
          cases hpf : net.objPutFault g.str with
          | true => simp [LoopOut.prepend, List.mem_append, ih _ _ f hf2 hread hgff hpff]
          | false =>
            by_cases hok :
                ((serverPut net.authOk repoNow o g.str bytes (shaArgOf net o g.str)).1 = 200
                  ∨ (serverPut net.authOk repoNow o g.str bytes (shaArgOf net o g.str)).1 = 201)
            · rw [statSize_isSome_of_readBytes fs g bytes heq]
              have htz : ¬(total = 0) := by omega
              simp [hok, htz, LoopOut.prepend, List.mem_append, ih _ _ f hf2 hread hgff hpff]
            · simp [hok, LoopOut.prepend, List.mem_append, ih _ _ f hf2 hread hgff hpff]

theorem syncLoop_warnUpload_mem (net : NetEnv) (fs : String → FileState)
    (repoNow : Bool) (total : Nat) (hpos : 0 < total) (hauth : net.authOk = false) :
    ∀ (files : List PyPath) (uploaded : Nat) (objs : List (String × Sha)) (f : PyPath),
      f ∈ files → (readBytes fs f).isSome = true → net.objGetFault f.str = false →
      net.objPutFault f.str = false →
      Event.warnUpload f.str ∈ (syncLoop net fs repoNow total files uploaded objs).events := by
  intro files
  induction files with
  | nil => intro u o f hf _ _ _; exact absurd hf (List.not_mem_nil f)
  | cons g rest ih =>
    intro u o f hf hread hgff hpff
    rcases List.mem_cons.mp hf with rfl | hf2
    · obtain ⟨bytes, hb⟩ := Option.isSome_iff_exists.mp hread
      unfold syncLoop
      rw [hb]
      dsimp only
      simp [hgff, hpff, hauth, serverPut, LoopOut.prepend]
    · unfold syncLoop
      cases heq : readBytes fs g with
      | none => simp [LoopOut.prepend, List.mem_append, ih _ _ f hf2 hread hgff hpff]
      | some bytes =>
        dsimp only
        cases hgf : net.objGetFault g.str with
        | true => simp [LoopOut.prepend, List.mem_append, ih _ _ f hf2 hread hgff hpff]
        | false =>
          cases hpf : net.objPutFault g.str with
          | true => simp [LoopOut.prepend, List.mem_append, ih _ _ f hf2 hread hgff hpff]
          | false =>
            by_cases hok :
                ((serverPut net.authOk repoNow o g.str bytes (shaArgOf net o g.str)).1 = 200
                  ∨ (serverPut net.authOk repoNow o g.str bytes (shaArgOf net o g.str)).1 = 201)
            · rw [statSize_isSome_of_readBytes fs g bytes heq]
              have htz : ¬(total = 0) := by omega
              simp [hok, htz, LoopOut.prepend, List.mem_append, ih _ _ f hf2 hread hgff hpff]
            · simp [hok, LoopOut.prepend, List.mem_append, ih _ _ f hf2 hread hgff hpff]

theorem syncLoop_putCount (net : NetEnv) (fs : String → FileState) (repoNow : Bool)
    (total : Nat) (hpos : 0 < total) :
    ∀ (files : List PyPath) (uploaded : Nat) (objs : List (String × Sha)),
      putCount (syncLoop net fs repoNow total files uploaded objs).events =
        (files.filter (fun f => (readBytes fs f).isSome && !net.objGetFault f.str)).length := by
  intro files
  induction files with
  | nil => intro u o; rfl
  | cons f rest ih =>
    intro u o
    unfold syncLoop
    cases heq : readBytes fs f with
    | none =>
      simp [LoopOut.prepend, putCount_append, putCount_cons, isPutEvent, List.filter_cons,
        heq, ih u o]
    | some bytes =>
      dsimp only
      cases hgf : net.objGetFault f.str with
      | true =>
        simp [LoopOut.prepend, putCount_append, putCount_cons, isPutEvent, List.filter_cons,
          heq, hgf, ih u o]
      | false =>
        cases hpf : net.objPutFault f.str with
        | true =>
          simp [LoopOut.prepend, putCount_append, putCount_cons, isPutEvent, List.filter_cons,
            heq, hgf, ih u o]
          omega
        | false =>
          by_cases hok :
              ((serverPut net.authOk repoNow o f.str bytes (shaArgOf net o f.str)).1 = 200
                ∨ (serverPut net.authOk repoNow o f.str bytes (shaArgOf net o f.str)).1 = 201)
          · rw [statSize_isSome_of_readBytes fs f bytes heq]
            have htz : ¬(total = 0) := by omega
            simp [hok, htz, LoopOut.prepend, putCount_append, putCount_cons, isPutEvent,
              List.filter_cons, heq, hgf, ih _ _]
            omega
          · simp [hok, LoopOut.prepend, putCount_append, putCount_cons, isPutEvent,
              List.filter_cons, heq, hgf, ih u _]
            omega

theorem progressValues_nil : progressValues [] = [] := rfl

theorem progressValues_append (l1 l2 : List Event) :
    progressValues (l1 ++ l2) = progressValues l1 ++ progressValues l2 := by
  simp [progressValues]

theorem progressValues_cons_repoGet (l : List Event) :
    progressValues (.repoGet :: l) = progressValues l := rfl

theorem progressValues_cons_repoCreate (l : List Event) :
    progressValues (.repoCreate :: l) = progressValues l := rfl

theorem progressValues_cons_objGet (n : String) (l : List Event) :
    progressValues (.objGet n :: l) = progressValues l := rfl

theorem progressValues_cons_objPut (n : String) (s : Option Sha) (l : List Event) :
    progressValues (.objPut n s :: l) = progressValues l := rfl

theorem progressValues_cons_progress (p : Nat) (l : List Event) :
    progressValues (.progress p :: l) = p :: progressValues l := rfl

theorem progressValues_cons_warnRead (n : String) (l : List Event) :
    progressValues (.warnRead n :: l) = progressValues l := rfl

theorem progressValues_cons_warnUpload (n : String) (l : List Event) :
    progressValues (.warnUpload n :: l) = progressValues l := rfl

theorem progressValues_cons_warnNetwork (n : String) (l : List Event) :
    progressValues (.warnNetwork n :: l) = progressValues l := rfl

theorem progressValues_cons_warnAuthMissing (l : List Event) :
    progressValues (.warnAuthMissing :: l) = progressValues l := rfl

theorem progressValues_cons_infoEmpty (l : List Event) :
    progressValues (.infoEmpty :: l) = progressValues l := rfl

theorem progressValues_cons_infoComplete (l : List Event) :
    progressValues (.infoComplete :: l) = progressValues l := rfl

theorem progressValues_cons_criticalRepoCheck (l : List Event) :
    progressValues (.criticalRepoCheck :: l) = progressValues l := rfl

theorem progressValues_cons_criticalCreateRepo (l : List Event) :
    progressValues (.criticalCreateRepo :: l) = progressValues l := rfl

theorem syncLoop_progress_chain (net : NetEnv) (fs : String → FileState) (repoNow : Bool)
    (total : Nat) (hpos : 0 < total) :
    ∀ (files : List PyPath) (uploaded : Nat) (objs : List (String × Sha)),
      uploaded + sumStat fs files ≤ total →
      List.Chain' (· ≤ ·)
        (uploaded * 100 / total ::
          progressValues (syncLoop net fs repoNow total files uploaded objs).events) ∧
      ∀ p ∈ progressValues (syncLoop net fs repoNow total files uploaded objs).events,
        p ≤ 100 := by
  intro files
  induction files with
  | nil =>
    intro u o hb
    constructor
    · simp [syncLoop, progressValues]
    · intro p hp
      simp [syncLoop, progressValues] at hp
  | cons f rest ih =>
    intro u o hb
    have hbc : u + ((statSize fs f).getD 0 + sumStat fs rest) ≤ total := by
      simp only [sumStat, List.map_cons, List.sum_cons] at hb
      simpa [sumStat] using hb
    unfold syncLoop
    cases heq : readBytes fs f with
    | none =>
      simpa [LoopOut.prepend, progressValues_append, progressValues_cons_warnRead]
        using ih u o (by omega)
    | some bytes =>
      dsimp only
      cases hgf : net.objGetFault f.str with
      | true =>
        simpa [LoopOut.prepend, progressValues_append, progressValues_cons_objGet,
          progressValues_cons_warnNetwork] using ih u o (by omega)
      | false =>
        cases hpf : net.objPutFault f.str with
        | true =>
          simpa [LoopOut.prepend, progressValues_append, progressValues_cons_objGet,
            progressValues_cons_objPut, progressValues_cons_warnNetwork]
            using ih u o (by omega)
        | false =>
          by_cases hok :
              ((serverPut net.authOk repoNow o f.str bytes (shaArgOf net o f.str)).1 = 200
                ∨ (serverPut net.authOk repoNow o f.str bytes (shaArgOf net o f.str)).1 = 201)
          · rw [statSize_isSome_of_readBytes fs f bytes heq]
            have htz : ¬(total = 0) := by omega
            have hszd : (statSize fs f).getD 0 = bytes.length := by
              rw [statSize_isSome_of_readBytes fs f bytes heq]
              rfl
            have hble : (u + bytes.length) + sumStat fs rest ≤ total := by omega
            have hrec :=
              ih (u + bytes.length)
                (serverPut net.authOk repoNow o f.str bytes (shaArgOf net o f.str)).2 hble
            have hlink : u * 100 / total ≤ (u + bytes.length) * 100 / total :=
              Nat.div_le_div_right (Nat.mul_le_mul_right 100 (by omega))
            have hbound : (u + bytes.length) * 100 / total ≤ 100 := by
              have h1 : (u + bytes.length) * 100 / total ≤ total * 100 / total :=
                Nat.div_le_div_right (Nat.mul_le_mul_right 100 (by omega))
              rwa [Nat.mul_div_cancel_left 100 hpos] at h1
            constructor
            · simp only [Bool.false_eq_true, if_false, ite_false, hok, htz,
                not_false_eq_true, or_true, true_or, if_true, ite_true, not_true_eq_false,
                LoopOut.prepend, progressValues_append, progressValues_cons_objGet,
                progressValues_cons_objPut, progressValues_cons_progress, List.nil_append,
                List.cons_append, List.append_nil]
              rw [List.chain'_cons']
              constructor
              · intro y hy
                simp only [List.head?_cons, Option.mem_def, Option.some.injEq] at hy
                rw [← hy]
                exact hlink
              · exact hrec.1
            · intro p hp
              simp only [Bool.false_eq_true, if_false, ite_false, hok, htz,
                not_false_eq_true, or_true, true_or, if_true, ite_true, not_true_eq_false,
                LoopOut.prepend, progressValues_append, progressValues_cons_objGet,
                progressValues_cons_objPut, progressValues_cons_progress, List.nil_append,
                List.cons_append, List.append_nil, List.mem_cons] at hp
              rcases hp with rfl | hp
              · exact hbound
              · exact hrec.2 p hp
          · simpa [hok, LoopOut.prepend, progressValues_append, progressValues_cons_objGet,
              progressValues_cons_objPut, progressValues_cons_warnUpload]
              using ih u _ (by omega)

theorem chain_le_append_last (l : List Nat) (b : Nat)
    (hc : List.Chain' (· ≤ ·) l) (hb : ∀ x ∈ l, x ≤ b) :
    List.Chain' (· ≤ ·) (l ++ [b]) := by
  induction l with
  | nil => simp
  | cons a t ih =>
    rw [List.cons_append, List.chain'_cons']
    rw [List.chain'_cons'] at hc
    refine ⟨?_, ih hc.2 fun x hx => hb x (List.mem_cons_of_mem a hx)⟩
    intro y hy
    cases t with
    | nil =>
      simp at hy
      subst hy
      exact hb a (List.mem_cons_self a [])
    | cons c t2 =>
      simp at hy
      subst hy
      exact hc.1 c (by simp)

/-! ## Claim theorems -/

/-- C2, amended: `upload_folder` never stores a remote version token locally —
it leaves the folder-to-paths mapping untouched, and the persisted
configuration derived from it (`save_folders_to_config`) holds nothing per file
except the path string, so no stored token can equal a content hash. -/
theorem C2_no_token_persisted (cfg : Config) (net : NetEnv) (fs : String → FileState)
    (currentFolder : String) (vfs : List (String × List PyPath)) (rp : Bool)
    (objs : List (String × Sha)) :
    (upload_folder cfg net fs currentFolder vfs rp objs).virtualFolders = vfs ∧
    save_folders_to_config (upload_folder cfg net fs currentFolder vfs rp objs).virtualFolders
      = vfs.map (fun kv => (kv.1, kv.2.map PyPath.str)) := by
  refine ⟨upload_folder_vfs cfg net fs currentFolder vfs rp objs, ?_⟩
  rw [upload_folder_vfs]
  rfl

/-- C2, counterexample: two runs over the same folder whose single file `a.txt`
holds different bytes both succeed with every file uploaded and no warning, yet
the state persisted after the run is identical in both — it cannot equal (or
even determine) the content hash of the local bytes, which differs between the
two runs.  The claimed per-file `remoteVersionToken` is never stored. -/
theorem C2_counterexample :
    outcomeOk (upload_folder cfgEx netOk fsB1 "docs" vfsOne true []).outcome = true ∧
    warnCount (upload_folder cfgEx netOk fsB1 "docs" vfsOne true []).events = 0 ∧
    outcomeOk (upload_folder cfgEx netOk fsB2 "docs" vfsOne true []).outcome = true ∧
    warnCount (upload_folder cfgEx netOk fsB2 "docs" vfsOne true []).events = 0 ∧
    save_folders_to_config (upload_folder cfgEx netOk fsB1 "docs" vfsOne true []).virtualFolders
      = save_folders_to_config (upload_folder cfgEx netOk fsB2 "docs" vfsOne true []).virtualFolders ∧
    ContentHasher_hash [1] ≠ ContentHasher_hash [2] := by
  decide

/-- C3: evaluating `upload_folder` at a folder holding one zero-byte file that
uploads successfully — the code performs the repository check, starts the
per-file loop, reads and PUTs the file, and then raises an uncaught
`ZeroDivisionError` computing `int(uploaded / total_size * 100)` with
`total_size == 0`, instead of reporting "empty, nothing to do" as the claim
(and the analogous guard in `BackupPage.start_backup`, src/main.py lines
196-199) requires. -/
theorem C3_zero_total_divide_crash :
    (upload_folder cfgEx netOk fsZero "docs" vfsZero true []).events =
      [.repoGet, .progress 0, .objGet "z.txt", .objPut "z.txt" none] ∧
    outcomeErr (upload_folder cfgEx netOk fsZero "docs" vfsZero true []).outcome =
      some .zeroDivisionError := by
  decide

/-- C6, counterexample: on a selected folder with zero files, `upload_folder`
only shows the "Empty" dialog and returns: it does not perform the
repository-exists check or create the repository (no `repoGet`/`repoCreate`
event), and it reports no progress at all — in particular not 100%. -/
theorem C6_counterexample :
    (upload_folder cfgEx netOk fsOne "empty" vfsEmptyF true []).events = [.infoEmpty] ∧
    progressValues (upload_folder cfgEx netOk fsOne "empty" vfsEmptyF true []).events = [] ∧
    (upload_folder cfgEx netOk fsOne "empty" vfsEmptyF true []).events.any isCreateEvent
      = false ∧
    outcomeOk (upload_folder cfgEx netOk fsOne "empty" vfsEmptyF true []).outcome = true := by
  decide

/-- C6, amended: on a selected virtual folder whose file list is empty,
`upload_folder` reports "No files to upload" and returns immediately with no
provisioning, no progress update, zero errors, and no change to local or
remote state. -/
theorem C6_empty_folder (cfg : Config) (net : NetEnv) (fs : String → FileState)
    (name : String) (vfs : List (String × List PyPath)) (rp : Bool)
    (objs : List (String × Sha))
    (hname : name ≠ "") (hempty : (List.lookup name vfs).getD [] = []) :
    upload_folder cfg net fs name vfs rp objs = ⟨[.infoEmpty], vfs, rp, objs, .ok ()⟩ := by
  unfold upload_folder
  rw [if_neg hname]
  simp [hempty]

/-- Witness for `C6_empty_folder` at the concrete empty folder. -/
theorem C6_empty_folder_witness :
    upload_folder cfgEx netOk fsOne "empty" vfsEmptyF true [] =
      ⟨[.infoEmpty], vfsEmptyF, true, [], .ok ()⟩ :=
  C6_empty_folder cfgEx netOk fsOne "empty" vfsEmptyF true [] (by decide) (by decide)

/-- C8: when a thumbnail is cached under the key `folder ++ "_" ++ filename`,
`add_file_item` loads it from disk and sets it immediately; it dispatches no
worker to the thread pool — and the worker is the only place a network request
is made, so a cache hit performs zero network calls. -/
theorem C8_cache_hit (cacheHas : String → Bool) (folder fileName : String)
    (h : cacheHas (folder ++ "_" ++ fileName) = true) :
    add_file_item cacheHas folder fileName =
      [.loadCachedPixmap (folder ++ "_" ++ fileName), .setThumbnail fileName] ∧
    ∀ e ∈ add_file_item cacheHas folder fileName, ∀ repo f, e ≠ .dispatchWorker repo f := by
  constructor
  · simp [add_file_item, thumb_cache_key, h]
  · intro e he repo f
    simp [add_file_item, thumb_cache_key, h] at he
    rcases he with rfl | rfl <;> simp

/-- Witness for `C8_cache_hit` on the spec's example key `"photos_cat.png"`. -/
theorem C8_cache_hit_witness :
    (fun k => k == "photos_cat.png") ("photos" ++ "_" ++ "cat.png") = true ∧
    add_file_item (fun k => k == "photos_cat.png") "photos" "cat.png" =
      [.loadCachedPixmap ("photos" ++ "_" ++ "cat.png"), .setThumbnail "cat.png"] :=
  ⟨by decide, (C8_cache_hit (fun k => k == "photos_cat.png") "photos" "cat.png" (by decide)).1⟩

theorem addFileStep_nodup (acc : List PyPath) (p : PyPath) (h : acc.Nodup) :
    (addFileStep acc p).Nodup := by
  unfold addFileStep
  split
  · exact h
  · next hmem =>
    simp [List.nodup_append, h, hmem]

theorem add_files_to_folder_nodup (existing chosen : List PyPath) (h : existing.Nodup) :
    (add_files_to_folder existing chosen).Nodup := by
  induction chosen generalizing existing with
  | nil => exact h
  | cons p rest ih => exact ih _ (addFileStep_nodup _ _ h)

/-- C9: the insertion step of `add_files_to_folder` never appends a path that
is already in the folder's list, and consequently any sequence of add-files
operations starting from a duplicate-free list leaves the list duplicate-free. -/
theorem C9_no_duplicate_paths (init : List PyPath) (ops : List (List PyPath))
    (h : init.Nodup) :
    (∀ acc p, p ∈ acc → addFileStep acc p = acc) ∧
    (ops.foldl add_files_to_folder init).Nodup := by
  constructor
  · intro acc p hp
    simp [addFileStep, hp]
  · induction ops generalizing init with
    | nil => exact h
    | cons o rest ih => exact ih _ (add_files_to_folder_nodup _ _ h)

/-- Witness for `C9_no_duplicate_paths` on a concrete sequence of add-files
operations that re-offers already present paths. -/
theorem C9_no_duplicate_paths_witness :
    ([⟨"a"⟩] : List PyPath).Nodup ∧
    (([[⟨"a"⟩, ⟨"b"⟩], [⟨"b"⟩, ⟨"c"⟩]] : List (List PyPath)).foldl
      add_files_to_folder [⟨"a"⟩]).Nodup :=
  ⟨by decide, (C9_no_duplicate_paths [⟨"a"⟩] [[⟨"a"⟩, ⟨"b"⟩], [⟨"b"⟩, ⟨"c"⟩]] (by decide)).2⟩

/-- C1, counterexample: a second `upload_folder` run over an unchanged file.
After the first run the remote object's version token equals the content hash
of the unchanged local bytes (the spec's skip condition holds), yet the second
run still issues one `putObject` call — carrying that very sha as the expected
version in the payload — instead of the claimed zero calls. -/
theorem C1_counterexample :
    putCount (upload_folder cfgEx netOk fsOne "docs" vfsOne true
        (upload_folder cfgEx netOk fsOne "docs" vfsOne true []).objects).events = 1 ∧
    List.lookup "a.txt" (upload_folder cfgEx netOk fsOne "docs" vfsOne true []).objects
      = some (ContentHasher_hash [1, 2, 3]) ∧
    Event.objPut "a.txt" (some (ContentHasher_hash [1, 2, 3])) ∈
      (upload_folder cfgEx netOk fsOne "docs" vfsOne true
        (upload_folder cfgEx netOk fsOne "docs" vfsOne true []).objects).events ∧
    warnCount (upload_folder cfgEx netOk fsOne "docs" vfsOne true
        (upload_folder cfgEx netOk fsOne "docs" vfsOne true []).objects).events = 0 ∧
    outcomeOk (upload_folder cfgEx netOk fsOne "docs" vfsOne true
        (upload_folder cfgEx netOk fsOne "docs" vfsOne true []).objects).outcome = true := by
  decide

/-- C4, counterexample: the existence check answers 401 (invalid credentials —
a provisioning authentication failure).  The code treats any non-404 status as
"repository exists": it does not abort, does not create the (absent)
repository, proceeds to per-file work (metadata GET and PUT are issued), and
returns normally. -/
theorem C4_counterexample :
    (upload_folder cfgEx netAuthBad fsOne "docs" vfsOne false []).events.any isCreateEvent
      = false ∧
    putCount (upload_folder cfgEx netAuthBad fsOne "docs" vfsOne false []).events = 1 ∧
    Event.objGet "a.txt" ∈ (upload_folder cfgEx netAuthBad fsOne "docs" vfsOne false []).events ∧
    outcomeOk (upload_folder cfgEx netAuthBad fsOne "docs" vfsOne false []).outcome = true := by
  decide

theorem upload_folder_transfer (cfg : Config) (net : NetEnv) (fs : String → FileState)
    (name : String) (vfs : List (String × List PyPath)) (rp : Bool)
    (objs : List (String × Sha)) (files : List PyPath)
    (hname : name ≠ "") (hfiles : (List.lookup name vfs).getD [] = files)
    (hne : files ≠ [])
    (hu : cfg.username ≠ "") (ht : cfg.token ≠ "")
    (hg : net.repoGetFault = false)
    (hcr : repoGetStatus net rp = 404 → net.createFault = false ∧ net.createRejects = false) :
    upload_folder cfg net fs name vfs rp objs =
      if repoGetStatus net rp = 404 then
        runTransfer net fs vfs true objs [.repoGet, .repoCreate] files
      else runTransfer net fs vfs rp objs [.repoGet] files := by
  have hie : files.isEmpty = false := by
    cases files with
    | nil => exact absurd rfl hne
    | cons a l => rfl
  have hauth : ¬(cfg.username = "" ∨ cfg.token = "") := by
    rintro (h | h)
    · exact hu h
    · exact ht h
  unfold upload_folder
  rw [if_neg hname]
  by_cases h404 : repoGetStatus net rp = 404
  · obtain ⟨hcf, hcj⟩ := hcr h404
    simp [hfiles, hie, hauth, hg, hcf, hcj, h404]
  · simp [hfiles, hie, hauth, hg, h404]

theorem runTransfer_ok (net : NetEnv) (fs : String → FileState)
    (vfs : List (String × List PyPath)) (repoNow : Bool) (objects : List (String × Sha))
    (prov : List Event) (files : List PyPath) (total : Nat)
    (htot : totalSize fs files = .ok total) (hpos : 0 < total) :
    (runTransfer net fs vfs repoNow objects prov files).events =
      prov ++ .progress 0 :: (syncLoop net fs repoNow total files 0 objects).events
        ++ [.progress 100, .infoComplete] ∧
    (runTransfer net fs vfs repoNow objects prov files).outcome = .ok () := by
  have herr := syncLoop_err_none net fs repoNow total hpos files 0 objects
  unfold runTransfer
  rw [htot]
  dsimp only
  rw [herr]
  exact ⟨rfl, rfl⟩

theorem runTransfer_any_create (net : NetEnv) (fs : String → FileState)
    (vfs : List (String × List PyPath)) (repoNow : Bool) (objects : List (String × Sha))
    (prov : List Event) (files : List PyPath) :
    (runTransfer net fs vfs repoNow objects prov files).events.any isCreateEvent
      = prov.any isCreateEvent := by
  unfold runTransfer
  split
  · rfl
  · dsimp only
    split
    · simp [List.any_append, isCreateEvent, syncLoop_no_create]
    · simp [List.any_append, isCreateEvent, syncLoop_no_create]

theorem runTransfer_progress (net : NetEnv) (fs : String → FileState)
    (vfs : List (String × List PyPath)) (repoNow : Bool) (objects : List (String × Sha))
    (prov : List Event) (files : List PyPath) (total : Nat)
    (hpv : progressValues prov = [])
    (htot : totalSize fs files = .ok total) (hpos : 0 < total) :
    List.Chain' (· ≤ ·)
      (progressValues (runTransfer net fs vfs repoNow objects prov files).events) ∧
    (progressValues (runTransfer net fs vfs repoNow objects prov files).events).getLast?
      = some 100 := by
  obtain ⟨hev, _⟩ := runTransfer_ok net fs vfs repoNow objects prov files total htot hpos
  have hsum := totalSize_eq_sumStat fs files total htot
  have hchain := syncLoop_progress_chain net fs repoNow total hpos files 0 objects (by omega)
  have h0 : (0 : Nat) * 100 / total = 0 := by simp
  rw [h0] at hchain
  rw [hev]
  rw [show progressValues (prov ++ .progress 0 ::
        (syncLoop net fs repoNow total files 0 objects).events
          ++ [.progress 100, .infoComplete]) =
      (0 :: progressValues (syncLoop net fs repoNow total files 0 objects).events) ++ [100]
    from by
      simp [progressValues_append, hpv, progressValues_cons_progress,
        progressValues_cons_infoComplete, progressValues_nil]]
  constructor
  · refine chain_le_append_last _ 100 hchain.1 ?_
    intro x hx
    rcases List.mem_cons.mp hx with rfl | hx
    · omega
    · exact hchain.2 x hx
  · exact List.getLast?_concat _

theorem runTransfer_isolation (net : NetEnv) (fs : String → FileState)
    (vfs : List (String × List PyPath)) (repoNow : Bool) (objects : List (String × Sha))
    (prov : List Event) (files : List PyPath) (total : Nat)
    (htot : totalSize fs files = .ok total) (hpos : 0 < total) :
    outcomeOk (runTransfer net fs vfs repoNow objects prov files).outcome = true ∧
    (runTransfer net fs vfs repoNow objects prov files).events.getLast?
      = some .infoComplete ∧
    (∀ f ∈ files, readBytes fs f = none →
      Event.warnRead f.str ∈ (runTransfer net fs vfs repoNow objects prov files).events) ∧
    (∀ f ∈ files, (readBytes fs f).isSome = true →
      Event.objGet f.str ∈ (runTransfer net fs vfs repoNow objects prov files).events) ∧
    (∀ f ∈ files, (readBytes fs f).isSome = true → net.objGetFault f.str = true →
      Event.warnNetwork f.str ∈ (runTransfer net fs vfs repoNow objects prov files).events) ∧
    (∀ f ∈ files, (readBytes fs f).isSome = true → net.objGetFault f.str = false →
      net.objPutFault f.str = true →
      Event.warnNetwork f.str ∈ (runTransfer net fs vfs repoNow objects prov files).events) ∧
    (∀ f ∈ files, (readBytes fs f).isSome = true → net.objGetFault f.str = false →
      net.objPutFault f.str = false → net.authOk = false →
      Event.warnUpload f.str ∈ (runTransfer net fs vfs repoNow objects prov files).events) := by
  obtain ⟨hev, hout⟩ := runTransfer_ok net fs vfs repoNow objects prov files total htot hpos
  refine ⟨by rw [hout]; rfl, ?_, ?_, ?_, ?_, ?_, ?_⟩
  · rw [show (runTransfer net fs vfs repoNow objects prov files).events =
        (prov ++ .progress 0 :: (syncLoop net fs repoNow total files 0 objects).events
          ++ [.progress 100]) ++ [.infoComplete]
      from by rw [hev]; simp]
    exact List.getLast?_concat _
  · intro f hf hread
    rw [hev]
    have hmem := syncLoop_warnRead_mem net fs repoNow total hpos files 0 objects f hf hread
    simp [List.mem_append, hmem]
  · intro f hf hread
    rw [hev]
    have hmem := syncLoop_objGet_mem net fs repoNow total hpos files 0 objects f hf hread
    simp [List.mem_append, hmem]
  · intro f hf hread hgff
    rw [hev]
    have hmem := syncLoop_warnNetwork_getFault_mem net fs repoNow total hpos files 0 objects
      f hf hread hgff
    simp [List.mem_append, hmem]
  · intro f hf hread hgff hpff
    rw [hev]
    have hmem := syncLoop_warnNetwork_putFault_mem net fs repoNow total hpos files 0 objects
      f hf hread hgff hpff
    simp [List.mem_append, hmem]
  · intro f hf hread hgff hpff hauth
    rw [hev]
    have hmem := syncLoop_warnUpload_mem net fs repoNow total hpos hauth files 0 objects
      f hf hread hgff hpff
    simp [List.mem_append, hmem]

/-- C7: for every sync invocation that reaches the transfer phase (a non-empty
selected folder, credentials present, provisioning neither raised nor failed to
create the repository) and whose computed total size is positive, the sequence
of progress-bar percent values emitted is non-decreasing and its final value is
exactly 100, regardless of rounding and regardless of which files fail to read
or upload. -/
theorem C7_progress_monotone (cfg : Config) (net : NetEnv) (fs : String → FileState)
    (name : String) (vfs : List (String × List PyPath)) (rp : Bool)
    (objs : List (String × Sha)) (files : List PyPath) (total : Nat)
    (hname : name ≠ "") (hfiles : (List.lookup name vfs).getD [] = files)
    (hu : cfg.username ≠ "") (ht : cfg.token ≠ "")
    (hg : net.repoGetFault = false)
    (hcr : repoGetStatus net rp = 404 → net.createFault = false ∧ net.createRejects = false)
    (htot : totalSize fs files = .ok total) (hpos : 0 < total) :
    List.Chain' (· ≤ ·)
      (progressValues (upload_folder cfg net fs name vfs rp objs).events) ∧
    (progressValues (upload_folder cfg net fs name vfs rp objs).events).getLast?
      = some 100 := by
  have hne : files ≠ [] := by
    rintro rfl
    simp [totalSize] at htot
    omega
  rw [upload_folder_transfer cfg net fs name vfs rp objs files hname hfiles hne hu ht hg hcr]
  by_cases h404 : repoGetStatus net rp = 404
  · rw [if_pos h404]
    exact runTransfer_progress net fs vfs true objs [.repoGet, .repoCreate] files total
      rfl htot hpos
  · rw [if_neg h404]
    exact runTransfer_progress net fs vfs rp objs [.repoGet] files total rfl htot hpos

/-- Witness for `C7_progress_monotone`: a concrete one-file sync whose emitted
percent values form a non-decreasing sequence ending in 100. -/
theorem C7_progress_monotone_witness :
    List.Chain' (· ≤ ·)
      (progressValues (upload_folder cfgEx netOk fsOne "docs" vfsOne true []).events) ∧
    (progressValues (upload_folder cfgEx netOk fsOne "docs" vfsOne true []).events).getLast?
      = some 100 :=
  C7_progress_monotone cfgEx netOk fsOne "docs" vfsOne true [] [⟨"a.txt"⟩] 3
    (by decide) (by decide) (by decide) (by decide) (by decide) (by decide) rfl (by decide)

/-- C1, amended: for every run that reaches the transfer phase with a positive
total, the number of `putObject` calls equals the number of files whose local
read and whose metadata GET do not raise — one put per such file, with no
skipping, whatever the remote tokens are (in particular on a second run over
unchanged content). -/
theorem C1_put_never_skipped (cfg : Config) (net : NetEnv) (fs : String → FileState)
    (name : String) (vfs : List (String × List PyPath)) (rp : Bool)
    (objs : List (String × Sha)) (files : List PyPath) (total : Nat)
    (hname : name ≠ "") (hfiles : (List.lookup name vfs).getD [] = files)
    (hu : cfg.username ≠ "") (ht : cfg.token ≠ "")
    (hg : net.repoGetFault = false)
    (hcr : repoGetStatus net rp = 404 → net.createFault = false ∧ net.createRejects = false)
    (htot : totalSize fs files = .ok total) (hpos : 0 < total) :
    putCount (upload_folder cfg net fs name vfs rp objs).events =
      (files.filter (fun f => (readBytes fs f).isSome && !net.objGetFault f.str)).length := by
  have hne : files ≠ [] := by
    rintro rfl
    simp [totalSize] at htot
    omega
  rw [upload_folder_transfer cfg net fs name vfs rp objs files hname hfiles hne hu ht hg hcr]
  by_cases h404 : repoGetStatus net rp = 404
  · rw [if_pos h404]
    obtain ⟨hev, _⟩ :=
      runTransfer_ok net fs vfs true objs [.repoGet, .repoCreate] files total htot hpos
    rw [hev]
    simp [putCount_append, putCount_cons, putCount_nil, isPutEvent,
      syncLoop_putCount net fs true total hpos files 0 objs]
  · rw [if_neg h404]
    obtain ⟨hev, _⟩ :=
      runTransfer_ok net fs vfs rp objs [.repoGet] files total htot hpos
    rw [hev]
    simp [putCount_append, putCount_cons, putCount_nil, isPutEvent,
      syncLoop_putCount net fs rp total hpos files 0 objs]

/-- Witness for `C1_put_never_skipped`: the second-run state in which the
remote already holds the token of the unchanged content — still one put. -/
theorem C1_put_never_skipped_witness :
    putCount (upload_folder cfgEx netOk fsOne "docs" vfsOne true
        [("a.txt", [1, 2, 3])]).events
      = (([⟨"a.txt"⟩] : List PyPath).filter
          (fun f => (readBytes fsOne f).isSome && !netOk.objGetFault f.str)).length :=
  C1_put_never_skipped cfgEx netOk fsOne "docs" vfsOne true [("a.txt", [1, 2, 3])]
    [⟨"a.txt"⟩] 3 (by decide) (by decide) (by decide) (by decide) (by decide) (by decide)
    rfl (by decide)

/-- C4, amended: a transport exception during the existence check, or a failed
`createRepository`, aborts the job before any per-file work (the run's whole
event list is the provisioning dialog); `createRepository` is attempted exactly
when the existence check returns 404.  (A non-404 error response such as 401 is
treated as "repository exists" and the job proceeds — see the counterexample.) -/
theorem C4_provisioning_behaviour (cfg : Config) (net : NetEnv) (fs : String → FileState)
    (name : String) (vfs : List (String × List PyPath)) (rp : Bool)
    (objs : List (String × Sha)) (files : List PyPath)
    (hname : name ≠ "") (hfiles : (List.lookup name vfs).getD [] = files)
    (hne : files ≠ []) (hu : cfg.username ≠ "") (ht : cfg.token ≠ "") :
    (net.repoGetFault = true →
      upload_folder cfg net fs name vfs rp objs
        = ⟨[.repoGet, .criticalRepoCheck], vfs, rp, objs, .ok ()⟩) ∧
    (net.repoGetFault = false → repoGetStatus net rp = 404 → net.createFault = true →
      upload_folder cfg net fs name vfs rp objs
        = ⟨[.repoGet, .repoCreate, .criticalRepoCheck], vfs, rp, objs, .ok ()⟩) ∧
    (net.repoGetFault = false → repoGetStatus net rp = 404 → net.createFault = false →
      net.createRejects = true →
      upload_folder cfg net fs name vfs rp objs
        = ⟨[.repoGet, .repoCreate, .criticalCreateRepo], vfs, rp, objs, .ok ()⟩) ∧
    (net.repoGetFault = false →
      ((upload_folder cfg net fs name vfs rp objs).events.any isCreateEvent = true
        ↔ repoGetStatus net rp = 404)) := by
  have hie : files.isEmpty = false := by
    cases files with
    | nil => exact absurd rfl hne
    | cons a l => rfl
  have hauth : ¬(cfg.username = "" ∨ cfg.token = "") := by
    rintro (h | h)
    · exact hu h
    · exact ht h
  refine ⟨?_, ?_, ?_, ?_⟩
  · intro hgf
    unfold upload_folder
    rw [if_neg hname]
    simp [hfiles, hie, hauth, hgf]
  · intro hgf h404 hcf
    unfold upload_folder
    rw [if_neg hname]
    simp [hfiles, hie, hauth, hgf, h404, hcf]
  · intro hgf h404 hcf hcj
    unfold upload_folder
    rw [if_neg hname]
    simp [hfiles, hie, hauth, hgf, h404, hcf, hcj]
  · intro hgf
    by_cases h404 : repoGetStatus net rp = 404
    · unfold upload_folder
      rw [if_neg hname]
      by_cases hcf : net.createFault = true
      · simp [hfiles, hie, hauth, hgf, h404, hcf, isCreateEvent]
      · by_cases hcj : net.createRejects = true
        · simp [hfiles, hie, hauth, hgf, h404, hcf, hcj, isCreateEvent]
        · simp [hfiles, hie, hauth, hgf, h404, hcf, hcj, isCreateEvent,
            runTransfer_any_create]
    · unfold upload_folder
      rw [if_neg hname]
      simp [hfiles, hie, hauth, hgf, h404, isCreateEvent, runTransfer_any_create]

/-- Witness for `C4_provisioning_behaviour`: a transport exception during the
existence check aborts the run with only the check attempt and the error
dialog as its events. -/
theorem C4_provisioning_behaviour_witness :
    upload_folder cfgEx netGetFault fsOne "docs" vfsOne true []
      = ⟨[.repoGet, .criticalRepoCheck], vfsOne, true, [], .ok ()⟩ :=
  (C4_provisioning_behaviour cfgEx netGetFault fsOne "docs" vfsOne true [] [⟨"a.txt"⟩]
    (by decide) (by decide) (by decide) (by decide) (by decide)).1 rfl

/-- C5, amended: for every run that reaches the transfer phase with a positive
total, the run returns normally and ends with the completion dialog; every file
whose read raises gets a "Read Error" warning naming it; every readable file is
still processed (its metadata GET is issued); and every file whose upload fails
is reported in a warning dialog naming it — a "Network Error" warning when its
metadata GET or its PUT raises, and an "Upload Failed" warning when the server
answers the PUT with an error status (in the model the server rejects a
fault-free PUT exactly when the credentials are rejected, since within one run
the expected sha fetched immediately before the PUT always matches the server's
current one).  Per-file failures are isolated.  (A failing `stat` during the
total-size computation instead aborts the whole run before any per-file work —
see the counterexample.) -/
theorem C5_partial_failure_isolation (cfg : Config) (net : NetEnv)
    (fs : String → FileState) (name : String) (vfs : List (String × List PyPath))
    (rp : Bool) (objs : List (String × Sha)) (files : List PyPath) (total : Nat)
    (hname : name ≠ "") (hfiles : (List.lookup name vfs).getD [] = files)
    (hu : cfg.username ≠ "") (ht : cfg.token ≠ "")
    (hg : net.repoGetFault = false)
    (hcr : repoGetStatus net rp = 404 → net.createFault = false ∧ net.createRejects = false)
    (htot : totalSize fs files = .ok total) (hpos : 0 < total) :
    outcomeOk (upload_folder cfg net fs name vfs rp objs).outcome = true ∧
    (upload_folder cfg net fs name vfs rp objs).events.getLast? = some .infoComplete ∧
    (∀ f ∈ files, readBytes fs f = none →
      Event.warnRead f.str ∈ (upload_folder cfg net fs name vfs rp objs).events) ∧
    (∀ f ∈ files, (readBytes fs f).isSome = true →
      Event.objGet f.str ∈ (upload_folder cfg net fs name vfs rp objs).events) ∧
    (∀ f ∈ files, (readBytes fs f).isSome = true → net.objGetFault f.str = true →
      Event.warnNetwork f.str ∈ (upload_folder cfg net fs name vfs rp objs).events) ∧
    (∀ f ∈ files, (readBytes fs f).isSome = true → net.objGetFault f.str = false →
      net.objPutFault f.str = true →
      Event.warnNetwork f.str ∈ (upload_folder cfg net fs name vfs rp objs).events) ∧
    (∀ f ∈ files, (readBytes fs f).isSome = true → net.objGetFault f.str = false →
      net.objPutFault f.str = false → net.authOk = false →
      Event.warnUpload f.str ∈ (upload_folder cfg net fs name vfs rp objs).events) := by
  have hne : files ≠ [] := by
    rintro rfl
    simp [totalSize] at htot
    omega
  rw [upload_folder_transfer cfg net fs name vfs rp objs files hname hfiles hne hu ht hg hcr]
  by_cases h404 : repoGetStatus net rp = 404
  · rw [if_pos h404]
    exact runTransfer_isolation net fs vfs true objs [.repoGet, .repoCreate] files total
      htot hpos
  · rw [if_neg h404]
    exact runTransfer_isolation net fs vfs rp objs [.repoGet] files total htot hpos

/-- Witness for `C5_partial_failure_isolation`: ordered files A, B, C where B
cannot be read and C's PUT raises — the run completes, warns about B (read) and
about C (network), and still processed C after B's failure. -/
theorem C5_partial_failure_isolation_witness :
    outcomeOk (upload_folder cfgEx netPutFaultC fsMix "docs" vfsMix true []).outcome
      = true ∧
    (upload_folder cfgEx netPutFaultC fsMix "docs" vfsMix true []).events.getLast?
      = some .infoComplete ∧
    Event.warnRead "b.txt"
      ∈ (upload_folder cfgEx netPutFaultC fsMix "docs" vfsMix true []).events ∧
    Event.objGet "c.txt"
      ∈ (upload_folder cfgEx netPutFaultC fsMix "docs" vfsMix true []).events ∧
    Event.warnNetwork "c.txt"
      ∈ (upload_folder cfgEx netPutFaultC fsMix "docs" vfsMix true []).events := by
  have h := C5_partial_failure_isolation cfgEx netPutFaultC fsMix "docs" vfsMix true []
    [⟨"a.txt"⟩, ⟨"b.txt"⟩, ⟨"c.txt"⟩] 3 (by decide) (by decide) (by decide) (by decide)
    (by decide) (by decide) rfl (by decide)
  exact ⟨h.1, h.2.1, h.2.2.1 ⟨"b.txt"⟩ (by decide) rfl,
    h.2.2.2.1 ⟨"c.txt"⟩ (by decide) rfl,
    h.2.2.2.2.2.1 ⟨"c.txt"⟩ (by decide) rfl rfl rfl⟩

/-- C5, counterexample: ordered files A, B, C where B has vanished from disk
(its `stat` raises).  The pre-loop total-size computation (src/main.py line
655, outside any `try`) raises an uncaught exception: the run stops after the
repository check with no warning recorded for B, no attempt at A or C, and no
terminal completion — contradicting the claimed per-file isolation and error
reporting.  (When `add_files_to_folder` auto-triggers this sync, its bare
`except Exception: pass` at src/main.py lines 565-568 swallows the exception
silently.) -/
theorem C5_counterexample :
    (upload_folder cfgEx netOk fsABC "docs" vfsABC true []).events = [.repoGet] ∧
    outcomeErr (upload_folder cfgEx netOk fsABC "docs" vfsABC true []).outcome =
      some (.statError "b.txt") ∧
    warnCount (upload_folder cfgEx netOk fsABC "docs" vfsABC true []).events = 0 ∧
    (upload_folder cfgEx netOk fsABC "docs" vfsABC true []).events.getLast?
      ≠ some .infoComplete := by
  decide

/-! ## src/commiter.py lemmas -/

theorem lineBreakFree_cons (c : Char) (u : List Char) :
    lineBreakFree (c :: u) = (!isLineBreak c && lineBreakFree u) := by
  simp [lineBreakFree]

theorem splitlinesGo_not_break (c : Char) (rest acc : List Char)
    (h : isLineBreak c = false) :
    splitlinesGo (c :: rest) acc = splitlinesGo rest (c :: acc) := by
  cases rest with
  | nil => simp [splitlinesGo, h]
  | cons d rest2 => simp [splitlinesGo, h]

theorem splitlinesGo_single_line (u : List Char) :
    ∀ acc, lineBreakFree u = true →
      splitlinesGo (u ++ ['\n']) acc = [acc.reverse ++ u] := by
  induction u with
  | nil =>
    intro acc _
    simp [splitlinesGo, isLineBreak]
  | cons c u2 ih =>
    intro acc hu
    rw [lineBreakFree_cons] at hu
    obtain ⟨hc, hu2⟩ : isLineBreak c = false ∧ lineBreakFree u2 = true := by
      simpa using hu
    rw [List.cons_append, splitlinesGo_not_break c _ acc hc, ih (c :: acc) hu2]
    simp

theorem splitlinesGo_first_line (u : List Char) :
    ∀ (X acc : List Char), lineBreakFree u = true → X ≠ [] →
      splitlinesGo (u ++ '\n' :: X) acc
        = (acc.reverse ++ u) :: splitlinesGo X [] := by
  induction u with
  | nil =>
    intro X acc _ hX
    cases X with
    | nil => exact absurd rfl hX
    | cons d X2 => simp [splitlinesGo, isLineBreak]
  | cons c u2 ih =>
    intro X acc hu hX
    rw [lineBreakFree_cons] at hu
    obtain ⟨hc, hu2⟩ : isLineBreak c = false ∧ lineBreakFree u2 = true := by
      simpa using hu
    rw [List.cons_append, splitlinesGo_not_break c _ acc hc, ih X (c :: acc) hu2 hX]
    simp

theorem splitlinesGo_newline_cons (X acc : List Char) (hX : X ≠ []) :
    splitlinesGo ('\n' :: X) acc = acc.reverse :: splitlinesGo X [] := by
  have h := splitlinesGo_first_line [] X acc rfl hX
  simpa using h

theorem splitlinesGo_crlf_cons (rest2 acc : List Char) (h : rest2 ≠ []) :
    splitlinesGo ('\r' :: '\n' :: rest2) acc = acc.reverse :: splitlinesGo rest2 [] := by
  cases rest2 with
  | nil => exact absurd rfl h
  | cons e r => simp [splitlinesGo, isLineBreak]

theorem splitlinesGo_crlf_last (acc : List Char) :
    splitlinesGo ['\r', '\n'] acc = [acc.reverse] := by
  simp [splitlinesGo, isLineBreak]

theorem splitlinesGo_break_last (c : Char) (acc : List Char) (hc : isLineBreak c = true) :
    splitlinesGo [c] acc = [acc.reverse] := by
  simp [splitlinesGo, hc]

theorem splitlinesGo_break_cons (c : Char) (rest acc : List Char)
    (hc : isLineBreak c = true)
    (hnotr : ¬(c = '\r' ∧ rest.head? = some '\n')) (h : rest ≠ []) :
    splitlinesGo (c :: rest) acc = acc.reverse :: splitlinesGo rest [] := by
  cases rest with
  | nil => exact absurd rfl h
  | cons d r =>
    have hcd : ¬(c = '\r' ∧ d = '\n') := by simpa using hnotr
    simp [splitlinesGo, hc, hcd]

theorem splitlinesGo_append_last_nil (u : List Char) (hu : lineBreakFree u = true)
    (acc : List Char) :
    splitlinesGo ('\n' :: (u ++ ['\n'])) acc = splitlinesGo ['\n'] acc ++ [u] := by
  rw [splitlinesGo_newline_cons _ acc (by simp), splitlinesGo_single_line u [] hu,
    splitlinesGo_break_last '\n' acc (by simp [isLineBreak])]
  simp

theorem splitlinesGo_append_last (u : List Char) (hu : lineBreakFree u = true) :
    ∀ (n : Nat) (t acc : List Char), t.length ≤ n →
      splitlinesGo (t ++ '\n' :: (u ++ ['\n'])) acc
        = splitlinesGo (t ++ ['\n']) acc ++ [u] := by
  intro n
  induction n with
  | zero =>
    intro t acc ht
    have ht0 : t = [] := by
      cases t
      · rfl
      · simp at ht
    subst ht0
    simpa using splitlinesGo_append_last_nil u hu acc
  | succ n ih =>
    intro t acc ht
    cases t with
    | nil => simpa using splitlinesGo_append_last_nil u hu acc
    | cons c t2 =>
      by_cases hc : isLineBreak c = true
      · cases t2 with
        | nil =>
          by_cases hr : c = '\r'
          · subst hr
            simp only [List.cons_append, List.nil_append]
            rw [splitlinesGo_crlf_cons (u ++ ['\n']) acc (by simp),
              splitlinesGo_single_line u [] hu, splitlinesGo_crlf_last acc]
            simp
          · simp only [List.cons_append, List.nil_append]
            rw [splitlinesGo_break_cons c ('\n' :: (u ++ ['\n'])) acc hc (by simp [hr])
                (by simp),
              splitlinesGo_newline_cons (u ++ ['\n']) [] (by simp),
              splitlinesGo_single_line u [] hu,
              splitlinesGo_break_cons c ['\n'] acc hc (by simp [hr]) (by simp),
              splitlinesGo_break_last '\n' [] (by simp [isLineBreak])]
            simp
        | cons d t3 =>
          by_cases hcd : c = '\r' ∧ d = '\n'
          · obtain ⟨rfl, rfl⟩ := hcd
            have hih := ih t3 [] (by simp at ht; omega)
            simp only [List.cons_append]
            rw [splitlinesGo_crlf_cons (t3 ++ '\n' :: (u ++ ['\n'])) acc (by simp),
              splitlinesGo_crlf_cons (t3 ++ ['\n']) acc (by simp), hih]
            simp
          · have hnotr1 : ¬(c = '\r' ∧ (d :: (t3 ++ '\n' :: (u ++ ['\n']))).head?
                = some '\n') := by
              simpa using hcd
            have hnotr2 : ¬(c = '\r' ∧ (d :: (t3 ++ ['\n'])).head? = some '\n') := by
              simpa using hcd
            have hih := ih (d :: t3) [] (by simp at ht ⊢; omega)
            simp only [List.cons_append] at hih ⊢
            rw [splitlinesGo_break_cons c (d :: (t3 ++ '\n' :: (u ++ ['\n']))) acc hc hnotr1
                (by simp),
              splitlinesGo_break_cons c (d :: (t3 ++ ['\n'])) acc hc hnotr2 (by simp),
              hih]
            simp
      · have hc2 : isLineBreak c = false := by simpa using hc
        simp only [List.cons_append]
        rw [splitlinesGo_not_break c (t2 ++ '\n' :: (u ++ ['\n'])) acc hc2,
          splitlinesGo_not_break c (t2 ++ ['\n']) acc hc2,
          ih t2 (c :: acc) (by simp at ht ⊢; omega)]

theorem splitlines_ne (s : List Char) (h : s ≠ []) :
    splitlines s = splitlinesGo s [] := by
  cases s with
  | nil => exact absurd rfl h
  | cons c r => rfl

theorem splitlines_append_line (text1 target : List Char)
    (h1 : text1 = [] ∨ text1.getLast? = some '\n') (ht : lineBreakFree target = true) :
    splitlines (text1 ++ target ++ ['\n']) = splitlines text1 ++ [target] := by
  rcases h1 with rfl | h1
  · rw [List.nil_append, splitlines_ne _ (by simp),
      splitlinesGo_single_line target [] ht]
    simp [splitlines]
  · obtain ⟨t, rfl⟩ := List.getLast?_eq_some_iff.mp h1
    rw [splitlines_ne _ (by simp), splitlines_ne _ (by simp),
      show (t ++ ['\n']) ++ target ++ ['\n'] = t ++ '\n' :: (target ++ ['\n']) from by simp,
      splitlinesGo_append_last target ht t.length t [] le_rfl]

theorem lineBreakFree_reverse_of (acc : List Char)
    (h : ∀ c ∈ acc, isLineBreak c = false) :
    lineBreakFree acc.reverse = true := by
  simp only [lineBreakFree, List.all_eq_true, List.mem_reverse]
  intro c hc
  simp [h c hc]

theorem splitlinesGo_all_free :
    ∀ (n : Nat) (s acc : List Char), s.length ≤ n →
      (∀ c ∈ acc, isLineBreak c = false) →
      ∀ l ∈ splitlinesGo s acc, lineBreakFree l = true := by
  intro n
  induction n with
  | zero =>
    intro s acc hs hacc l hl
    have hs0 : s = [] := by
      cases s
      · rfl
      · simp at hs
    subst hs0
    simp [splitlinesGo] at hl
    subst hl
    exact lineBreakFree_reverse_of acc hacc
  | succ n ih =>
    intro s acc hs hacc l hl
    cases s with
    | nil =>
      simp [splitlinesGo] at hl
      subst hl
      exact lineBreakFree_reverse_of acc hacc
    | cons c rest =>
      cases rest with
      | nil =>
        by_cases hc : isLineBreak c = true
        · rw [splitlinesGo_break_last c acc hc] at hl
          simp at hl
          subst hl
          exact lineBreakFree_reverse_of acc hacc
        · have hc2 : isLineBreak c = false := by simpa using hc
          rw [splitlinesGo_not_break c [] acc hc2] at hl
          simp [splitlinesGo] at hl
          subst hl
          have hfr : lineBreakFree ((c :: acc).reverse) = true := by
            refine lineBreakFree_reverse_of _ ?_
            intro x hx
            rcases List.mem_cons.mp hx with rfl | hx
            · exact hc2
            · exact hacc x hx
          simpa using hfr
      | cons d rest2 =>
        by_cases hc : isLineBreak c = true
        · by_cases hcd : c = '\r' ∧ d = '\n'
          · obtain ⟨rfl, rfl⟩ := hcd
            cases rest2 with
            | nil =>
              rw [splitlinesGo_crlf_last acc] at hl
              simp at hl
              subst hl
              exact lineBreakFree_reverse_of acc hacc
            | cons e r =>
              rw [splitlinesGo_crlf_cons (e :: r) acc (by simp)] at hl
              rcases List.mem_cons.mp hl with rfl | hl
              · exact lineBreakFree_reverse_of acc hacc
              · exact ih (e :: r) [] (by simp at hs ⊢; omega) (by simp) l hl
          · rw [splitlinesGo_break_cons c (d :: rest2) acc hc (by simpa using hcd)
              (by simp)] at hl
            rcases List.mem_cons.mp hl with rfl | hl
            · exact lineBreakFree_reverse_of acc hacc
            · exact ih (d :: rest2) [] (by simp at hs ⊢; omega) (by simp) l hl
        · have hc2 : isLineBreak c = false := by simpa using hc
          rw [splitlinesGo_not_break c (d :: rest2) acc hc2] at hl
          refine ih (d :: rest2) (c :: acc) (by simp at hs ⊢; omega) ?_ l hl
          intro x hx
          rcases List.mem_cons.mp hx with rfl | hx
          · exact hc2
          · exact hacc x hx

theorem splitlines_all_free (s : List Char) :
    ∀ l ∈ splitlines s, lineBreakFree l = true := by
  intro l hl
  cases s with
  | nil => simp [splitlines] at hl
  | cons c r =>
    exact splitlinesGo_all_free (c :: r).length (c :: r) [] le_rfl (by simp) l hl

theorem splitlines_joinNL :
    ∀ (ls : List (List Char)), (∀ l ∈ ls, lineBreakFree l = true) → ls ≠ [] →
      splitlines (joinNL ls ++ ['\n']) = ls := by
  intro ls
  induction ls with
  | nil => intro _ h; exact absurd rfl h
  | cons l ls2 ih =>
    intro hall _
    cases ls2 with
    | nil =>
      rw [show joinNL [l] = l from rfl, splitlines_ne _ (by simp),
        splitlinesGo_single_line l [] (hall l (by simp))]
      simp
    | cons l2 t =>
      have hX : joinNL (l2 :: t) ++ ['\n'] ≠ [] := by simp
      rw [show joinNL (l :: l2 :: t) = l ++ '\n' :: joinNL (l2 :: t) from rfl,
        show (l ++ '\n' :: joinNL (l2 :: t)) ++ ['\n']
          = l ++ '\n' :: (joinNL (l2 :: t) ++ ['\n']) from by simp,
        splitlines_ne _ (by simp),
        splitlinesGo_first_line l _ [] (hall l (by simp)) hX,
        ← splitlines_ne _ hX, ih (fun x hx => hall x (by simp [hx])) (by simp)]
      simp

theorem mem_splitlines_any (lines : List (List Char)) (target : List Char) :
    (lines.any (fun l => l == target)) = true ↔ target ∈ lines := by
  simp [List.any_eq_true]

theorem toggle_step_spec (target text : List Char) (h : lineBreakFree target = true) :
    ((target ∈ splitlines (toggle_step target text)) ↔ target ∉ splitlines text) ∧
    (target ∈ splitlines text →
      splitlines (toggle_step target text) =
        (splitlines text).filter (fun l => !(l == target))) ∧
    (target ∉ splitlines text →
      ∃ text1, (text1 = text ∨ text1 = text ++ ['\n']) ∧
        toggle_step target text = text1 ++ target ++ ['\n'] ∧
        splitlines (toggle_step target text) = splitlines text1 ++ [target] ∧
        (toggle_step target text).getLast? = some '\n') := by
  by_cases hmem : target ∈ splitlines text
  · have hany : ((splitlines text).any (fun l => l == target)) = true :=
      (mem_splitlines_any _ _).mpr hmem
    have hfree : ∀ l ∈ (splitlines text).filter (fun l => !(l == target)),
        lineBreakFree l = true := by
      intro l hl
      exact splitlines_all_free text l (List.mem_filter.mp hl).1
    have hres : splitlines (toggle_step target text)
        = (splitlines text).filter (fun l => !(l == target)) := by
      unfold toggle_step
      dsimp only
      rw [hany, if_neg (fun hcontra => hcontra rfl)]
      by_cases he : ((splitlines text).filter (fun l => !(l == target))).isEmpty = true
      · have he2 : (splitlines text).filter (fun l => !(l == target)) = [] := by
          simpa [List.isEmpty_iff] using he
        rw [if_pos he, he2]
        rfl
      · rw [if_neg he]
        exact splitlines_joinNL _ hfree (by
          intro hc
          rw [hc] at he
          simp at he)
    have hnotin : target ∉ (splitlines text).filter (fun l => !(l == target)) := by
      intro hin
      have h2 := (List.mem_filter.mp hin).2
      simp at h2
    refine ⟨?_, ?_, ?_⟩
    · rw [hres]
      exact ⟨fun hin => absurd hin hnotin, fun hnot => absurd hmem hnot⟩
    · intro _
      exact hres
    · intro hnot
      exact absurd hmem hnot
  · have hany : ((splitlines text).any (fun l => l == target)) = false := by
      cases hany2 : (splitlines text).any (fun l => l == target)
      · rfl
      · exact absurd ((mem_splitlines_any _ _).mp hany2) hmem
    have hres : toggle_step target text =
        (if ¬text.isEmpty ∧ ¬endsWithNewline text then text ++ ['\n'] else text)
          ++ target ++ ['\n'] := by
      unfold toggle_step
      dsimp only
      rw [hany, if_pos (by simp : ¬(false = true))]
    have h1 : (if ¬text.isEmpty ∧ ¬endsWithNewline text then text ++ ['\n'] else text) = []
        ∨ (if ¬text.isEmpty ∧ ¬endsWithNewline text then text ++ ['\n'] else text).getLast?
            = some '\n' := by
      by_cases hcond : ¬text.isEmpty = true ∧ ¬endsWithNewline text = true
      · right
        rw [if_pos hcond]
        exact List.getLast?_concat text
      · rw [if_neg hcond]
        by_cases hie : text.isEmpty = true
        · left
          exact List.isEmpty_iff.mp hie
        · right
          by_cases hew : endsWithNewline text = true
          · simpa [endsWithNewline] using hew
          · exact absurd ⟨hie, hew⟩ hcond
    have hsplit : splitlines (toggle_step target text)
        = splitlines (if ¬text.isEmpty ∧ ¬endsWithNewline text then text ++ ['\n'] else text)
            ++ [target] := by
      rw [hres]
      exact splitlines_append_line _ target h1 h
    refine ⟨?_, ?_, ?_⟩
    · rw [hsplit]
      exact ⟨fun _ => hmem, fun _ => by simp⟩
    · intro hin
      exact absurd hin hmem
    · intro _
      refine ⟨_, ?_, hres, hsplit, ?_⟩
      · by_cases hcond : ¬text.isEmpty = true ∧ ¬endsWithNewline text = true
        · right
          rw [if_pos hcond]
        · left
          rw [if_neg hcond]
      · rw [hres, show (if ¬text.isEmpty ∧ ¬endsWithNewline text then text ++ ['\n']
            else text) ++ target ++ ['\n']
          = ((if ¬text.isEmpty ∧ ¬endsWithNewline text then text ++ ['\n'] else text)
              ++ target) ++ ['\n'] from by simp]
        exact List.getLast?_concat _

/-- C10: one iteration of the commiter toggle loop, on a (quote-normalized)
target that is a single line, flips membership of the target: the resulting
text contains a line exactly equal to `normalize_line raw` iff the input text
did not; the removal branch keeps exactly the lines that differ from the
target (deleting every exact-match occurrence); and the add branch appends
exactly one newline-terminated occurrence of the target (after supplying a
missing final newline), so the result ends with a newline. -/
theorem C10_toggle_flips_membership (raw text : List Char)
    (h : lineBreakFree (normalize_line raw) = true) :
    ((normalize_line raw ∈ splitlines (toggle_step (normalize_line raw) text)) ↔
      normalize_line raw ∉ splitlines text) ∧
    (normalize_line raw ∈ splitlines text →
      splitlines (toggle_step (normalize_line raw) text) =
        (splitlines text).filter (fun l => !(l == normalize_line raw))) ∧
    (normalize_line raw ∉ splitlines text →
      ∃ text1, (text1 = text ∨ text1 = text ++ ['\n']) ∧
        toggle_step (normalize_line raw) text = text1 ++ normalize_line raw ++ ['\n'] ∧
        splitlines (toggle_step (normalize_line raw) text)
          = splitlines text1 ++ [normalize_line raw] ∧
        (toggle_step (normalize_line raw) text).getLast? = some '\n') :=
  toggle_step_spec (normalize_line raw) text h

/-- Witness for `C10_toggle_flips_membership`: toggling the quote-wrapped
target `"x"` on the one-line text `a` adds the line; membership flips. -/
theorem C10_toggle_flips_membership_witness :
    lineBreakFree (normalize_line ['"', 'x', '"']) = true ∧
    ((normalize_line ['"', 'x', '"'] ∈
        splitlines (toggle_step (normalize_line ['"', 'x', '"']) ['a', '\n'])) ↔
      normalize_line ['"', 'x', '"'] ∉ splitlines ['a', '\n']) :=
  ⟨by decide, (C10_toggle_flips_membership ['"', 'x', '"'] ['a', '\n'] (by decide)).1⟩
